import Mathlib

/-!
Shallow embedding of the community-board backend (user / post / comment
controllers and their in-memory model layer) and proofs about it.

Conventions used throughout:
* Python dict records become Lean structures with the same field names.
* Python lists become Lean lists; the `next((x for x if pred), None)`
  idiom becomes `List.find?`; loops that mutate the first matching
  element become first-match rewriting recursions.
* `datetime.now().strftime("%Y-%m-%d %H:%M:%S")` timestamps are modelled
  as a `Nat` supplied by the caller (the fixed-width format string
  compares lexicographically exactly as the instants compare, so `Nat`
  with `≤` is an order-faithful model of the stored string).
* Stateful methods become `State → args → result × State`; a raised
  `ValueError` becomes `Except.error` carrying the error-taxonomy value
  that the message denotes (NotFound / Forbidden / DuplicateKey /
  InvalidInput).
-/

namespace Community

/-- Error taxonomy of the controllers: each `ValueError` message raised in the
source corresponds to one of these cases. -/
inductive Err
  | NotFound
  | Forbidden
  | DuplicateKey
  | InvalidInput
deriving DecidableEq, Repr

/-- Values stored in a Python dict projection: an int, a string, or `None`. -/
inductive Value
  | vInt (i : Int)
  | vStr (s : String)
  | vNone
deriving DecidableEq, Repr

/-- User record as stored in `UserController.users` (user_controller.py,
`register` step 5): keys id, email, password, nickname, profile_image. -/
structure User where
  id : Int
  email : String
  password : String
  nickname : String
  profile_image : Option String
deriving DecidableEq, Repr

/-- Public projection (id, email, nickname, profile_image) returned by
`register`, `login` and `update_nickname` — the dict literal that omits
the password key. -/
structure PublicUser where
  id : Int
  email : String
  nickname : String
  profile_image : Option String
deriving DecidableEq, Repr

def userProjection (u : User) : PublicUser :=
  ⟨u.id, u.email, u.nickname, u.profile_image⟩

def optValue : Option String → Value
  | none => .vNone
  | some s => .vStr s

/-- The exact dict literal built at the end of `UserController.register`
(user_controller.py lines 105-110), kept as an association list so that the
set of keys it carries is part of the model. -/
def projectionDict (u : User) : List (String × Value) :=
  [("id", .vInt u.id), ("email", .vStr u.email), ("nickname", .vStr u.nickname),
   ("profile_image", optValue u.profile_image)]

/-- In-memory store of `UserController` (`self.users`). -/
structure UCState where
  users : List User
deriving DecidableEq, Repr

/-- `UserController.check_email_duplicate`. -/
def checkEmailDuplicate (s : UCState) (email : String) : Bool :=
  s.users.any (fun u => u.email == email)

/-- `UserController.check_nickname_duplicate`. -/
def checkNicknameDuplicate (s : UCState) (nickname : String) : Bool :=
  s.users.any (fun u => u.nickname == nickname)

/-- `UserController.register`: validations in source order (profile image
present — Python `not profile_image` is true for both `None` and `""` —,
email duplicate, password confirmation, nickname duplicate), then append the
new user with id `len(users) + 1` and return the password-free projection. -/
def register (s : UCState) (email password password_confirm nickname : String)
    (profile_image : Option String) :
    (Except Err (List (String × Value))) × UCState :=
  if profile_image.getD "" == "" then (.error .InvalidInput, s)
  else if checkEmailDuplicate s email then (.error .DuplicateKey, s)
  else if password != password_confirm then (.error .InvalidInput, s)
  else if checkNicknameDuplicate s nickname then (.error .DuplicateKey, s)
  else
    let newUser : User :=
      ⟨(s.users.length : Int) + 1, email, password, nickname, profile_image⟩
    (.ok (projectionDict newUser), ⟨s.users ++ [newUser]⟩)

/-- `next((u for u in self.users if u["id"] == user_id), None)`. -/
def findUserById (s : UCState) (uid : Int) : Option User :=
  s.users.find? (fun u => u.id == uid)

/-- In-place mutation `user["nickname"] = new_nickname` of the first user
whose id matches (the object `next(...)` returned). -/
def setNicknameFirst (uid : Int) (nick : String) : List User → List User
  | [] => []
  | u :: us =>
    if u.id == uid then { u with nickname := nick } :: us
    else u :: setNicknameFirst uid nick us

/-- `UserController.update_nickname` (user_controller.py lines 178-218):
find the user (else `NotFound`); same nickname is a no-op success; a
different user already holding the nickname is `DuplicateKey`; otherwise
write the nickname and return the projection. -/
def updateNickname (s : UCState) (uid : Int) (nick : String) :
    (Except Err PublicUser) × UCState :=
  match findUserById s uid with
  | none => (.error .NotFound, s)
  | some u =>
    if u.nickname == nick then
      (.ok (userProjection u), s)
    else if s.users.any (fun v => v.nickname == nick && v.id != uid) then
      (.error .DuplicateKey, s)
    else
      (.ok (userProjection { u with nickname := nick }),
       ⟨setNicknameFirst uid nick s.users⟩)

/-- C6: for every registration that succeeds, the returned projection carries
exactly the keys id, email, nickname, profile_image and never the password
key. -/
theorem register_projection_excludes_password
    (s : UCState) (email pw pwc nick : String) (img : Option String)
    (d : List (String × Value))
    (h : (register s email pw pwc nick img).1 = .ok d) :
    d.map Prod.fst = ["id", "email", "nickname", "profile_image"] ∧
      "password" ∉ d.map Prod.fst := by
  unfold register at h
  split_ifs at h
  simp_all [projectionDict]
  subst h
  simp [projectionDict]

/-- Fixture: empty user store. -/
def ucEmpty : UCState := ⟨[]⟩

/-- Witness for C6 at a concrete successful registration. -/
theorem register_projection_excludes_password_witness :
    (register ucEmpty "a@x.com" "Pw1!aaaa" "Pw1!aaaa" "alice" (some "img")).1 =
        .ok [("id", .vInt 1), ("email", .vStr "a@x.com"),
             ("nickname", .vStr "alice"), ("profile_image", .vStr "img")] ∧
      ([("id", Value.vInt 1), ("email", .vStr "a@x.com"),
        ("nickname", .vStr "alice"),
        ("profile_image", .vStr "img")].map Prod.fst =
          ["id", "email", "nickname", "profile_image"] ∧
        "password" ∉ [("id", Value.vInt 1), ("email", .vStr "a@x.com"),
          ("nickname", .vStr "alice"),
          ("profile_image", .vStr "img")].map Prod.fst) :=
  ⟨rfl,
   register_projection_excludes_password ucEmpty "a@x.com" "Pw1!aaaa" "Pw1!aaaa"
     "alice" (some "img") _ rfl⟩

/-- C5: `update_nickname` case analysis — absent user fails NotFound; equal
nickname is a no-op success returning the projection; a different user
already holding the nickname fails DuplicateKey; otherwise the nickname is
written and the projection returned. -/
theorem update_nickname_spec (s : UCState) (uid : Int) (nick : String) :
    (findUserById s uid = none →
       updateNickname s uid nick = (.error .NotFound, s)) ∧
    (∀ u, findUserById s uid = some u → u.nickname = nick →
       updateNickname s uid nick = (.ok (userProjection u), s)) ∧
    (∀ u, findUserById s uid = some u → u.nickname ≠ nick →
       (∃ v ∈ s.users, v.nickname = nick ∧ v.id ≠ uid) →
       updateNickname s uid nick = (.error .DuplicateKey, s)) ∧
    (∀ u, findUserById s uid = some u → u.nickname ≠ nick →
       (¬ ∃ v ∈ s.users, v.nickname = nick ∧ v.id ≠ uid) →
       updateNickname s uid nick =
         (.ok (userProjection { u with nickname := nick }),
          ⟨setNicknameFirst uid nick s.users⟩)) := by
  refine ⟨fun h => ?_, fun u h he => ?_, fun u h hne hdup => ?_,
    fun u h hne hdup => ?_⟩ <;>
    simp only [updateNickname, h] <;>
    simp_all [List.any_eq_true]

/-- Fixture: two users for the C5 witness. -/
def ucTwo : UCState :=
  ⟨[⟨1, "a@x.com", "p", "alice", some "i"⟩,
    ⟨2, "b@x.com", "p", "bob", some "i"⟩]⟩

/-- Witness for C5: duplicate nickname rejected, no-op rename accepted, and a
fresh rename applied, each at a concrete input. -/
theorem update_nickname_spec_witness :
    updateNickname ucTwo 1 "bob" = (.error .DuplicateKey, ucTwo) ∧
      updateNickname ucTwo 1 "alice" =
        (.ok ⟨1, "a@x.com", "alice", some "i"⟩, ucTwo) ∧
      updateNickname ucTwo 1 "carol" =
        (.ok ⟨1, "a@x.com", "carol", some "i"⟩,
         ⟨[⟨1, "a@x.com", "p", "carol", some "i"⟩,
           ⟨2, "b@x.com", "p", "bob", some "i"⟩]⟩) :=
  ⟨(update_nickname_spec ucTwo 1 "bob").2.2.1
      ⟨1, "a@x.com", "p", "alice", some "i"⟩ (by decide) (by decide)
      ⟨⟨2, "b@x.com", "p", "bob", some "i"⟩, by decide, by decide, by decide⟩,
   (update_nickname_spec ucTwo 1 "alice").2.1
      ⟨1, "a@x.com", "p", "alice", some "i"⟩ (by decide) (by decide),
   (update_nickname_spec ucTwo 1 "carol").2.2.2
      ⟨1, "a@x.com", "p", "alice", some "i"⟩ (by decide) (by decide)
      (by decide)⟩

/-- Post record as stored in `PostModel.posts` (post_model.py `create`,
lines 74-86). -/
structure Post where
  id : Int
  title : String
  content : String
  image_url : Option String
  author_id : Int
  author_nickname : String
  author_profile_image : Option String
  created_at : Nat
  views : Int
  likes : Int
  comment_count : Int
deriving DecidableEq, Repr

/-- State of a `PostModel` instance: `self.posts`, `self.user_likes`
(a dict user_id → set of post ids, as an association list), and
`self._next_id`. -/
structure PMState where
  posts : List Post
  user_likes : List (Int × List Int)
  next_id : Int
deriving DecidableEq, Repr

/-- Freshly constructed `PostModel()`. -/
def pmInitial : PMState := ⟨[], [], 1⟩

/-- `PostModel.create`: append the new post with id `_next_id` and zeroed
counters, then bump `_next_id`. -/
def pmCreate (s : PMState) (title content : String) (author_id : Int)
    (author_nickname : String) (author_profile_image image_url : Option String)
    (created_at : Nat) : Post × PMState :=
  let p : Post := ⟨s.next_id, title, content, image_url, author_id,
    author_nickname, author_profile_image, created_at, 0, 0, 0⟩
  (p, ⟨s.posts ++ [p], s.user_likes, s.next_id + 1⟩)

/-- `PostModel.find_by_id`: first post whose id matches, else `None`. -/
def pmFindById (s : PMState) (pid : Int) : Option Post :=
  s.posts.find? (fun p => p.id == pid)

/-- The `for i, post in enumerate(self.posts): if post["id"] == post_id`
loops of post_model.py: rewrite the first matching post with `f` and return
the rewritten record. -/
def mutateFirst (pid : Int) (f : Post → Post) :
    List Post → Option Post × List Post
  | [] => (none, [])
  | p :: ps =>
    if p.id == pid then (some (f p), f p :: ps)
    else
      let r := mutateFirst pid f ps
      (r.1, p :: r.2)

/-- The field writes of `PostModel.update` as invoked by the controller:
each of title / content / image_url is written only when the supplied value
is not `None` (none of these keys is in `immutable_fields`). -/
def applyUpdateFields (title content image_url : Option String)
    (p : Post) : Post :=
  let p1 := match title with | some t => { p with title := t } | none => p
  let p2 := match content with | some c => { p1 with content := c } | none => p1
  match image_url with | some i => { p2 with image_url := some i } | none => p2

/-- `PostModel.update(post_id, title=..., content=..., image_url=...)`:
returns the updated post, or `None` when the id is absent (state
untouched). -/
def pmUpdate (s : PMState) (pid : Int)
    (title content image_url : Option String) : Option Post × PMState :=
  let r := mutateFirst pid (applyUpdateFields title content image_url) s.posts
  (r.1, { s with posts := r.2 })

/-- `PostModel.increment_views`. -/
def pmIncrementViews (s : PMState) (pid : Int) : Bool × PMState :=
  let r := mutateFirst pid (fun p => { p with views := p.views + 1 }) s.posts
  (r.1.isSome, { s with posts := r.2 })

/-- `PostModel.increment_comment_count`. -/
def pmIncrementCommentCount (s : PMState) (pid : Int) : Bool × PMState :=
  let r := mutateFirst pid
    (fun p => { p with comment_count := p.comment_count + 1 }) s.posts
  (r.1.isSome, { s with posts := r.2 })

/-- `PostModel.decrement_comment_count`: clamps at zero via
`max(0, comment_count - 1)`. -/
def pmDecrementCommentCount (s : PMState) (pid : Int) : Bool × PMState :=
  let r := mutateFirst pid
    (fun p => { p with comment_count := max 0 (p.comment_count - 1) }) s.posts
  (r.1.isSome, { s with posts := r.2 })

/-- Lookup of the like set `self.user_likes[user_id]` (first — and in a real
dict only — entry for the user). -/
def ulFind (ul : List (Int × List Int)) (uid : Int) : Option (List Int) :=
  (ul.find? (fun e => e.1 == uid)).map Prod.snd

/-- `if user_id not in self.user_likes: self.user_likes[user_id] = set()`. -/
def ulEnsure (ul : List (Int × List Int)) (uid : Int) :
    List (Int × List Int) :=
  if ul.any (fun e => e.1 == uid) then ul else ul ++ [(uid, [])]

/-- `user_id in self.user_likes and post_id in self.user_likes[user_id]`
(`PostModel.is_liked_by_user`, and the toggle membership test). -/
def ulMember (ul : List (Int × List Int)) (uid pid : Int) : Bool :=
  match ulFind ul uid with
  | some l => l.contains pid
  | none => false

/-- `self.user_likes[user_id].add(post_id)`. -/
def ulAdd (ul : List (Int × List Int)) (uid pid : Int) :
    List (Int × List Int) :=
  ul.map (fun e => if e.1 == uid then (e.1, pid :: e.2) else e)

/-- `self.user_likes[user_id].remove(post_id)` — a Python set holds at most
one copy, so removal is dropping every occurrence. -/
def ulRemove (ul : List (Int × List Int)) (uid pid : Int) :
    List (Int × List Int) :=
  ul.map (fun e => if e.1 == uid then (e.1, e.2.filter (fun q => q != pid)) else e)

/-- `for user_id in self.user_likes: self.user_likes[user_id].discard(post_id)`. -/
def ulDiscardAll (ul : List (Int × List Int)) (pid : Int) :
    List (Int × List Int) :=
  ul.map (fun e => (e.1, e.2.filter (fun q => q != pid)))

/-- `PostModel.toggle_like` (post_model.py lines 212-241): absent post gives
`None`; otherwise ensure the user has a like set, then either remove the
like and clamp-decrement the count (reporting `False`) or add the like and
increment the count (reporting `True`). -/
def pmToggleLike (s : PMState) (pid uid : Int) :
    Option (Post × Bool) × PMState :=
  if (pmFindById s pid).isSome then
    let ul := ulEnsure s.user_likes uid
    if ulMember ul uid pid then
      let r := mutateFirst pid
        (fun p => { p with likes := max 0 (p.likes - 1) }) s.posts
      (r.1.map (fun p => (p, false)), ⟨r.2, ulRemove ul uid pid, s.next_id⟩)
    else
      let r := mutateFirst pid (fun p => { p with likes := p.likes + 1 }) s.posts
      (r.1.map (fun p => (p, true)), ⟨r.2, ulAdd ul uid pid, s.next_id⟩)
  else (none, s)

/-- `self.posts.pop(i)` on the first matching index. -/
def removeFirstPost (pid : Int) : List Post → Bool × List Post
  | [] => (false, [])
  | p :: ps =>
    if p.id == pid then (true, ps)
    else
      let r := removeFirstPost pid ps
      (r.1, p :: r.2)

/-- `PostModel.delete` (post_model.py lines 260-280): pop the post and, only
when one was found, discard its id from every like set. -/
def pmDelete (s : PMState) (pid : Int) : Bool × PMState :=
  let r := removeFirstPost pid s.posts
  if r.1 then (true, ⟨r.2, ulDiscardAll s.user_likes pid, s.next_id⟩)
  else (false, s)

/-- `PostModel.delete_by_author`: drop the author's posts, collecting their
ids, then discard each collected id from every like set. -/
def pmDeleteByAuthor (s : PMState) (aid : Int) : List Int × PMState :=
  let deleted := (s.posts.filter (fun p => p.author_id == aid)).map (fun p => p.id)
  (deleted,
   ⟨s.posts.filter (fun p => p.author_id != aid),
    deleted.foldl (fun ul pid => ulDiscardAll ul pid) s.user_likes,
    s.next_id⟩)

/-- Comment record as stored in `CommentModel.comments`
(comment_model.py `create`, lines 67-75). -/
structure Comment where
  id : Int
  post_id : Int
  author_id : Int
  author_nickname : String
  author_profile_image : Option String
  content : String
  created_at : Nat
deriving DecidableEq, Repr

/-- State of a `CommentModel` instance: `self.comments` and `self._next_id`. -/
structure CMState where
  comments : List Comment
  next_id : Int
deriving DecidableEq, Repr

/-- Freshly constructed `CommentModel()`. -/
def cmInitial : CMState := ⟨[], 1⟩

/-- `CommentModel.create`: append the new comment with id `_next_id`, then
bump `_next_id`. -/
def cmCreate (s : CMState) (post_id author_id : Int)
    (author_nickname : String) (author_profile_image : Option String)
    (content : String) (created_at : Nat) : Comment × CMState :=
  let c : Comment := ⟨s.next_id, post_id, author_id, author_nickname,
    author_profile_image, content, created_at⟩
  (c, ⟨s.comments ++ [c], s.next_id + 1⟩)

/-- `CommentModel.find_by_id`. -/
def cmFindById (s : CMState) (cid : Int) : Option Comment :=
  s.comments.find? (fun c => c.id == cid)

/-- Sort key relation of `CommentModel.find_by_post`:
`key=lambda x: x["created_at"]`. -/
def commentLE (a b : Comment) : Prop := a.created_at ≤ b.created_at

instance : DecidableRel commentLE := fun a b => Nat.decLe a.created_at b.created_at

/-- `CommentModel.find_by_post`: the comments of the post, sorted by
created_at ascending. Python's `sorted` is a stable sort; every stable sort
by a key computes the same list, so Mathlib's stable `insertionSort` is an
exact model of it. -/
def cmFindByPost (s : CMState) (pid : Int) : List Comment :=
  List.insertionSort commentLE (s.comments.filter (fun c => c.post_id == pid))

/-- In-place mutation `self.comments[i]["content"] = content` of the first
matching comment (`CommentModel.update`). -/
def cmMutateFirst (cid : Int) (content : String) :
    List Comment → Option Comment × List Comment
  | [] => (none, [])
  | c :: cs =>
    if c.id == cid then (some { c with content := content },
      { c with content := content } :: cs)
    else
      let r := cmMutateFirst cid content cs
      (r.1, c :: r.2)

/-- `CommentModel.update`. -/
def cmUpdate (s : CMState) (cid : Int) (content : String) :
    Option Comment × CMState :=
  let r := cmMutateFirst cid content s.comments
  (r.1, { s with comments := r.2 })

/-- `self.comments.pop(i)` on the first matching index (`CommentModel.delete`). -/
def removeFirstComment (cid : Int) : List Comment → Bool × List Comment
  | [] => (false, [])
  | c :: cs =>
    if c.id == cid then (true, cs)
    else
      let r := removeFirstComment cid cs
      (r.1, c :: r.2)

/-- `CommentModel.delete`. -/
def cmDelete (s : CMState) (cid : Int) : Bool × CMState :=
  let r := removeFirstComment cid s.comments
  (r.1, { s with comments := r.2 })

/-- Modelled from the spec: `UserController.get_user_info` is called by the
Post and Comment controllers but is defined nowhere under the source tree;
§4.3 specifies it (`get_public_info(user_id) -> projection|absent`) as the
read-only resolver of the user's public projection, absent when the id does
not resolve. -/
def getUserInfo (s : UCState) (uid : Int) : Option PublicUser :=
  (findUserById s uid).map userProjection

/-- `PostController.create` with an injected user controller: resolve the
author (else the "작성자를 찾을 수 없습니다" ValueError, `InvalidInput` in the
spec taxonomy), then delegate to `PostModel.create`. -/
def postCtrlCreate (us : UCState) (s : PMState) (title content : String)
    (author_id : Int) (image_url : Option String) (created_at : Nat) :
    Except Err (Post × PMState) :=
  match getUserInfo us author_id with
  | none => .error .InvalidInput
  | some a =>
    .ok (pmCreate s title content author_id a.nickname a.profile_image
      image_url created_at)

/-- `PostController.update` (PUT): full replacement of title/content plus the
optional image_url; `NotFound` when the model reports no such post. No actor
identity is consulted anywhere on this path. -/
def postCtrlUpdate (s : PMState) (pid : Int) (title content : String)
    (image_url : Option String) : (Except Err Post) × PMState :=
  let r := pmUpdate s pid (some title) (some content) image_url
  match r.1 with
  | none => (.error .NotFound, r.2)
  | some p => (.ok p, r.2)

/-- `PostController.partial_update` (PATCH): same model call with every field
optional. No actor identity is consulted anywhere on this path. -/
def postCtrlPartialUpdate (s : PMState) (pid : Int)
    (title content image_url : Option String) : (Except Err Post) × PMState :=
  let r := pmUpdate s pid title content image_url
  match r.1 with
  | none => (.error .NotFound, r.2)
  | some p => (.ok p, r.2)

/-- `PostController.delete`: `NotFound` when the model reports failure. No
actor identity is consulted anywhere on this path. -/
def postCtrlDelete (s : PMState) (pid : Int) : (Except Err Unit) × PMState :=
  let r := pmDelete s pid
  if r.1 then (.ok (), r.2) else (.error .NotFound, r.2)

/-- `PostController.toggle_like`: `NotFound` when the model reports no such
post, else the `{"post": ..., "liked": ...}` payload. -/
def postCtrlToggleLike (s : PMState) (pid uid : Int) :
    (Except Err (Post × Bool)) × PMState :=
  let r := pmToggleLike s pid uid
  match r.1 with
  | none => (.error .NotFound, r.2)
  | some pl => (.ok pl, r.2)

/-- `CommentController.update` (comment_controller.py lines 170-198): fetch
the comment (`NotFound` when absent), reject a non-author with the
"본인이 작성한 댓글만 수정할 수 있습니다" ValueError (`Forbidden`), else replace the
content via the model. -/
def commentCtrlUpdate (s : CMState) (cid : Int) (content : String)
    (uid : Int) : (Except Err Comment) × CMState :=
  match cmFindById s cid with
  | none => (.error .NotFound, s)
  | some c =>
    if c.author_id != uid then (.error .Forbidden, s)
    else
      let r := cmUpdate s cid content
      match r.1 with
      | none => (.error .NotFound, r.2)
      | some c2 => (.ok c2, r.2)

/-- `CommentController.delete` (comment_controller.py lines 203-231): same
ownership check as update, then pop the comment via the model. -/
def commentCtrlDelete (s : CMState) (cid uid : Int) :
    (Except Err Unit) × CMState :=
  match cmFindById s cid with
  | none => (.error .NotFound, s)
  | some c =>
    if c.author_id != uid then (.error .Forbidden, s)
    else
      let r := cmDelete s cid
      if r.1 then (.ok (), r.2) else (.error .NotFound, r.2)

/-- `CommentController.get_by_post_id`: the model's ordered sequence (the
per-comment dict projection keeps every field used here). -/
def commentCtrlGetByPostId (s : CMState) (pid : Int) : List Comment :=
  cmFindByPost s pid

/-- One enqueued `add_ai_comment_background` task: the keyword arguments
passed to `background_tasks.add_task` at trigger time. -/
structure AITask where
  post_id : Int
  post_title : String
  post_content : String
deriving DecidableEq, Repr

/-- The `create_post` route handler (post_routes.py lines 160-223): run
`PostController.create` and, on success, enqueue the AI-comment background
task — the source contains the `background_tasks.add_task(...)` block twice
in a row, so two identical tasks are enqueued, their arguments read from
`result` at trigger time. -/
def routeCreatePost (us : UCState) (s : PMState) (title content : String)
    (author_id : Int) (image_url : Option String) (created_at : Nat) :
    (Except Err Post) × PMState × List AITask :=
  match postCtrlCreate us s title content author_id image_url created_at with
  | .error e => (.error e, s, [])
  | .ok r =>
    (.ok r.1, r.2,
     [⟨r.1.id, r.1.title, r.1.content⟩, ⟨r.1.id, r.1.title, r.1.content⟩])

/-- The `delete_post` route handler: it builds only a post controller over
the shared stores, so the comment store is passed through untouched. -/
def routeDeletePost (pm : PMState) (cm : CMState) (pid : Int) :
    (Except Err Unit) × PMState × CMState :=
  let r := postCtrlDelete pm pid
  (r.1, r.2, cm)

/-- Fixture: one registered author for the post-creation route. -/
def aiUsers : UCState := ⟨[⟨1, "a@x.com", "pw", "alice", some "img"⟩]⟩

/-- C3: evaluating the `create_post` route at a successful creation. The
post is persisted (it is in the returned store) and the enqueued task list
holds the new post's id/title/content captured from `result` — but the task
is enqueued twice, not once: the handler repeats the
`background_tasks.add_task` block verbatim. -/
theorem create_post_enqueues_ai_task_twice :
    routeCreatePost aiUsers pmInitial "Hello" "World" 1 none 5 =
      (.ok ⟨1, "Hello", "World", none, 1, "alice", some "img", 5, 0, 0, 0⟩,
       ⟨[⟨1, "Hello", "World", none, 1, "alice", some "img", 5, 0, 0, 0⟩],
        [], 2⟩,
       [⟨1, "Hello", "World"⟩, ⟨1, "Hello", "World"⟩]) ∧
      (routeCreatePost aiUsers pmInitial "Hello" "World" 1 none 5).2.2.length
        = 2 :=
  ⟨rfl, rfl⟩

/-- Fixture: a post (id 1, author 1) liked by user 2, with one comment. -/
def orphanPM : PMState := ⟨[⟨1, "t", "c", none, 1, "alice", none, 5, 0, 1, 1⟩],
  [(2, [1])], 2⟩

/-- Fixture: the comment (id 1) sitting on post 1. -/
def orphanComment : Comment := ⟨1, 1, 2, "bob", none, "hi", 6⟩

/-- Fixture: comment store holding `orphanComment`. -/
def orphanCM : CMState := ⟨[orphanComment], 2⟩

/-- C2: evaluating post deletion at the failing input. The delete succeeds,
the post and its Like row are gone, but the comment referencing post 1
survives in the comment store — no code path deletes it
(`CommentModel.delete_by_post` is never called). An absent id still fails
NotFound with both stores unchanged. -/
theorem delete_post_leaves_orphan_comment :
    routeDeletePost orphanPM orphanCM 1 = (.ok (), ⟨[], [(2, [])], 2⟩, orphanCM) ∧
      orphanComment ∈ (routeDeletePost orphanPM orphanCM 1).2.2.comments ∧
      (routeDeletePost orphanPM orphanCM 1).2.1.posts = [] ∧
      ulMember (routeDeletePost orphanPM orphanCM 1).2.1.user_likes 2 1 = false ∧
      routeDeletePost orphanPM orphanCM 99 =
        (.error .NotFound, orphanPM, orphanCM) :=
  ⟨rfl, by decide, by decide, by decide, rfl⟩

/-- Fixture: a post store whose only post (id 1) was authored by user 1. -/
def ownPM : PMState := ⟨[⟨1, "orig", "body", none, 1, "alice", none, 5, 0, 0, 0⟩],
  [], 2⟩

/-- C1 counterexample: the post-side operations consult no actor identity at
all, so an update attempt made on behalf of any actor — in particular one
different from author 1 — is not rejected: it succeeds and the stored title
changes. Deletion likewise succeeds unconditionally. -/
theorem post_update_ignores_actor :
    (ownPM.posts.map Post.author_id = [1]) ∧
      (postCtrlUpdate ownPM 1 "hacked" "body" none).1 =
        .ok ⟨1, "hacked", "body", none, 1, "alice", none, 5, 0, 0, 0⟩ ∧
      (pmFindById (postCtrlUpdate ownPM 1 "hacked" "body" none).2 1).map
          Post.title = some "hacked" ∧
      (postCtrlDelete ownPM 1).1 = .ok () ∧
      (postCtrlDelete ownPM 1).2.posts = [] :=
  ⟨by decide, rfl, by decide, rfl, by decide⟩

/-- First-match rewriting returns exactly the rewrite of the post that
`find?` locates. -/
lemma mutateFirst_fst_of_find (pid : Int) (f : Post → Post) (l : List Post)
    (p : Post) (h : l.find? (fun q => q.id == pid) = some p) :
    (mutateFirst pid f l).1 = some (f p) := by
  induction l with
  | nil => simp at h
  | cons q qs ih =>
    by_cases hq : (q.id == pid) = true
    · simp only [List.find?, hq, Option.some.injEq] at h
      subst h
      simp [mutateFirst, hq]
    · simp only [List.find?, hq] at h
      simp [mutateFirst, hq, ih h]

/-- First-match removal reports success exactly when `find?` locates a
post. -/
lemma removeFirstPost_fst_of_find (pid : Int) (l : List Post) (p : Post)
    (h : l.find? (fun q => q.id == pid) = some p) :
    (removeFirstPost pid l).1 = true := by
  induction l with
  | nil => simp at h
  | cons q qs ih =>
    by_cases hq : (q.id == pid) = true
    · simp [removeFirstPost, hq]
    · simp only [List.find?, hq] at h
      simp [removeFirstPost, hq, ih h]

/-- Comment analogue of `mutateFirst_fst_of_find`. -/
lemma cmMutateFirst_fst_of_find (cid : Int) (content : String)
    (l : List Comment) (c : Comment)
    (h : l.find? (fun q => q.id == cid) = some c) :
    (cmMutateFirst cid content l).1 = some { c with content := content } := by
  induction l with
  | nil => simp at h
  | cons q qs ih =>
    by_cases hq : (q.id == cid) = true
    · simp only [List.find?, hq, Option.some.injEq] at h
      subst h
      simp [cmMutateFirst, hq]
    · simp only [List.find?, hq] at h
      simp [cmMutateFirst, hq, ih h]

/-- Comment analogue of `removeFirstPost_fst_of_find`. -/
lemma removeFirstComment_fst_of_find (cid : Int) (l : List Comment)
    (c : Comment) (h : l.find? (fun q => q.id == cid) = some c) :
    (removeFirstComment cid l).1 = true := by
  induction l with
  | nil => simp at h
  | cons q qs ih =>
    by_cases hq : (q.id == cid) = true
    · simp [removeFirstComment, hq]
    · simp only [List.find?, hq] at h
      simp [removeFirstComment, hq, ih h]

/-- C1 as amended: comment update/delete enforce authorship — a non-author
actor is rejected with Forbidden and the comment store is unchanged, while
the author's request succeeds — whereas post update and delete consult no
actor identity and succeed for any actor whenever the post exists. -/
theorem ownership_checks_spec :
    (∀ (s : CMState) (cid uid : Int) (content : String) (c : Comment),
       cmFindById s cid = some c → c.author_id ≠ uid →
       commentCtrlUpdate s cid content uid = (.error .Forbidden, s)) ∧
      (∀ (s : CMState) (cid uid : Int) (c : Comment),
         cmFindById s cid = some c → c.author_id ≠ uid →
         commentCtrlDelete s cid uid = (.error .Forbidden, s)) ∧
      (∀ (s : CMState) (cid : Int) (content : String) (c : Comment),
         cmFindById s cid = some c →
         (commentCtrlUpdate s cid content c.author_id).1 =
           .ok { c with content := content }) ∧
      (∀ (s : CMState) (cid : Int) (c : Comment),
         cmFindById s cid = some c →
         (commentCtrlDelete s cid c.author_id).1 = .ok ()) ∧
      (∀ (s : PMState) (pid : Int) (t c2 : String) (i : Option String)
         (p : Post), pmFindById s pid = some p →
         (postCtrlUpdate s pid t c2 i).1 =
           .ok (applyUpdateFields (some t) (some c2) i p)) ∧
      (∀ (s : PMState) (pid : Int) (p : Post),
         pmFindById s pid = some p → (postCtrlDelete s pid).1 = .ok ()) := by
  refine ⟨?_, ?_, ?_, ?_, ?_, ?_⟩
  · intro s cid uid content c h hne
    simp [commentCtrlUpdate, h, bne_iff_ne, hne]
  · intro s cid uid c h hne
    simp [commentCtrlDelete, h, bne_iff_ne, hne]
  · intro s cid content c h
    simp [commentCtrlUpdate, h, cmUpdate,
      cmMutateFirst_fst_of_find cid content s.comments c h]
  · intro s cid c h
    simp [commentCtrlDelete, h, cmDelete,
      removeFirstComment_fst_of_find cid s.comments c h]
  · intro s pid t c2 i p h
    simp [postCtrlUpdate, pmUpdate,
      mutateFirst_fst_of_find pid (applyUpdateFields (some t) (some c2) i)
        s.posts p h]
  · intro s pid p h
    simp [postCtrlDelete, pmDelete, removeFirstPost_fst_of_find pid s.posts p h]

/-- Witness for the amended C1 at concrete inputs: user 99 is rejected from
editing comment 1 (authored by user 2) with the store unchanged, and the
actor-free post update succeeds on `ownPM`. -/
theorem ownership_checks_spec_witness :
    commentCtrlUpdate orphanCM 1 "edited" 99 = (.error .Forbidden, orphanCM) ∧
      (postCtrlUpdate ownPM 1 "new title" "body" none).1 =
        .ok ⟨1, "new title", "body", none, 1, "alice", none, 5, 0, 0, 0⟩ :=
  ⟨ownership_checks_spec.1 orphanCM 1 99 "edited" orphanComment rfl
      (by decide),
   ownership_checks_spec.2.2.2.2.1 ownPM 1 "new title" "body" none
      ⟨1, "orig", "body", none, 1, "alice", none, 5, 0, 0, 0⟩ rfl⟩

/-- The `immutable_fields` set literal inside `PostModel.update`
(post_model.py lines 146-148). -/
def immutableFields : List String :=
  ["id", "author_id", "author_nickname", "author_profile_image",
   "created_at", "views", "likes", "comment_count"]

/-- Python dict lookup on the raw post record (a post is a dict in the
source, so arbitrary `**kwargs` keys are modelled on the association-list
representation). -/
def dictLookup : List (String × Value) → String → Option Value
  | [], _ => none
  | e :: es, k => if e.1 == k then some e.2 else dictLookup es k

/-- Python dict assignment `post[key] = value`: overwrite in place when the
key exists, else append. -/
def dictSet (d : List (String × Value)) (k : String) (v : Value) :
    List (String × Value) :=
  if d.any (fun e => e.1 == k) then
    d.map (fun e => if e.1 == k then (k, v) else e)
  else d ++ [(k, v)]

/-- One iteration of the kwargs loop of `PostModel.update`:
`if key not in immutable_fields and value is not None: post[key] = value`. -/
def applyKwarg (d : List (String × Value)) (kv : String × Value) :
    List (String × Value) :=
  if immutableFields.contains kv.1 then d
  else if kv.2 == Value.vNone then d
  else dictSet d kv.1 kv.2

/-- The whole `for key, value in kwargs.items()` loop of `PostModel.update`
applied to one post record. -/
def applyKwargs (kwargs : List (String × Value))
    (d : List (String × Value)) : List (String × Value) :=
  kwargs.foldl applyKwarg d

/-- Overwriting key `k2` in place does not disturb the lookup of a key
`k ≠ k2`. -/
lemma dictLookup_mapSet (d : List (String × Value)) (k k2 : String)
    (v : Value) (h : (k2 == k) = false) :
    dictLookup (d.map (fun e => if e.1 == k2 then (k2, v) else e)) k =
      dictLookup d k := by
  induction d with
  | nil => rfl
  | cons e es ih =>
    by_cases he : (e.1 == k2) = true
    · have heq : e.1 = k2 := by simpa using he
      have he2 : (e.1 == k) = false := by rw [heq]; exact h
      simp_all [dictLookup]
    · simp_all [dictLookup]
      split
      · rw [if_neg (fun hh => h hh.symm)]
      · rfl

/-- Appending an entry for a fresh key `k2` does not disturb the lookup of a
key `k ≠ k2`. -/
lemma dictLookup_appendSet (d : List (String × Value)) (k k2 : String)
    (v : Value) (h : (k2 == k) = false) :
    dictLookup (d ++ [(k2, v)]) k = dictLookup d k := by
  induction d with
  | nil => simp [dictLookup, h]
  | cons e es ih =>
    by_cases hk : (e.1 == k) = true
    · simp [dictLookup, hk]
    · simp [dictLookup, hk, ih]

/-- Dict assignment to key `k2` leaves the lookup of any other key
unchanged. -/
lemma dictLookup_dictSet_ne (d : List (String × Value)) (k k2 : String)
    (v : Value) (h : k ≠ k2) :
    dictLookup (dictSet d k2 v) k = dictLookup d k := by
  have hb : (k2 == k) = false := by
    simpa using fun he => h he.symm
  unfold dictSet
  split_ifs with ha
  · exact dictLookup_mapSet d k k2 v hb
  · exact dictLookup_appendSet d k k2 v hb

/-- The kwargs loop of `PostModel.update` never changes the lookup of a key
in `immutable_fields`. -/
lemma dictLookup_applyKwargs_immutable (kwargs : List (String × Value))
    (d : List (String × Value)) (k : String) (hk : k ∈ immutableFields) :
    dictLookup (applyKwargs kwargs d) k = dictLookup d k := by
  induction kwargs generalizing d with
  | nil => rfl
  | cons kv rest ih =>
    have step : dictLookup (applyKwarg d kv) k = dictLookup d k := by
      unfold applyKwarg
      split_ifs with h1 h2
      · rfl
      · rfl
      · refine dictLookup_dictSet_ne d k kv.1 kv.2 fun he => ?_
        rw [he] at hk
        simp at h1
        exact h1 hk
    calc dictLookup (applyKwargs (kv :: rest) d) k
        = dictLookup (applyKwargs rest (applyKwarg d kv)) k := rfl
      _ = dictLookup (applyKwarg d kv) k := ih (applyKwarg d kv)
      _ = dictLookup d k := step

/-- Unmatched first-match rewriting is the identity. -/
lemma mutateFirst_of_find_none (pid : Int) (f : Post → Post) (l : List Post)
    (h : l.find? (fun q => q.id == pid) = none) :
    mutateFirst pid f l = (none, l) := by
  induction l with
  | nil => rfl
  | cons q qs ih =>
    by_cases hq : (q.id == pid) = true
    · simp [List.find?, hq] at h
    · simp only [List.find?, hq] at h
      simp [mutateFirst, hq, ih h]

/-- C7: the update loop leaves every immutable field of the post record
unchanged no matter what kwargs the caller supplies (so only title, content
and image_url can change); the typed field writes touch none of the
immutable fields either; and both controller update flavours fail NotFound,
with the store untouched, when the post id is absent. -/
theorem post_update_frame (d : List (String × Value))
    (kwargs : List (String × Value)) :
    (∀ k ∈ immutableFields, dictLookup (applyKwargs kwargs d) k = dictLookup d k) ∧
      (∀ k, dictLookup (applyKwargs kwargs d) k ≠ dictLookup d k →
        k ∉ immutableFields) ∧
      (∀ (t c i : Option String) (p : Post),
        (applyUpdateFields t c i p).id = p.id ∧
          (applyUpdateFields t c i p).author_id = p.author_id ∧
          (applyUpdateFields t c i p).author_nickname = p.author_nickname ∧
          (applyUpdateFields t c i p).author_profile_image =
            p.author_profile_image ∧
          (applyUpdateFields t c i p).created_at = p.created_at ∧
          (applyUpdateFields t c i p).views = p.views ∧
          (applyUpdateFields t c i p).likes = p.likes ∧
          (applyUpdateFields t c i p).comment_count = p.comment_count) ∧
      (∀ (s : PMState) (pid : Int) (t c : String) (i t2 c2 i2 : Option String),
        pmFindById s pid = none →
        postCtrlUpdate s pid t c i = (.error .NotFound, s) ∧
          postCtrlPartialUpdate s pid t2 c2 i2 = (.error .NotFound, s)) := by
  refine ⟨fun k hk => dictLookup_applyKwargs_immutable kwargs d k hk,
    fun k hne => fun hk => hne (dictLookup_applyKwargs_immutable kwargs d k hk),
    fun t c i p => ?_, fun s pid t c i t2 c2 i2 h => ?_⟩
  · unfold applyUpdateFields
    cases t <;> cases c <;> cases i <;> simp
  · unfold pmFindById at h
    constructor
    · simp [postCtrlUpdate, pmUpdate, mutateFirst_of_find_none _ _ _ h]
    · simp [postCtrlPartialUpdate, pmUpdate, mutateFirst_of_find_none _ _ _ h]

/-- Fixture: the dict record of a concrete stored post. -/
def postDict : List (String × Value) :=
  [("id", .vInt 1), ("title", .vStr "orig"), ("content", .vStr "body"),
   ("image_url", .vNone), ("author_id", .vInt 1),
   ("author_nickname", .vStr "alice"), ("author_profile_image", .vNone),
   ("created_at", .vStr "2025-01-01 00:00:00"), ("views", .vInt 3),
   ("likes", .vInt 2), ("comment_count", .vInt 1)]

/-- Fixture: a kwargs bundle that tries to overwrite immutable fields as
well as the title. -/
def hostileKwargs : List (String × Value) :=
  [("views", .vInt 99), ("id", .vInt 7), ("title", .vStr "new")]

/-- Witness for C7 at concrete inputs: hostile kwargs leave views and id
untouched while the title write goes through, and an absent id fails
NotFound. -/
theorem post_update_frame_witness :
    dictLookup (applyKwargs hostileKwargs postDict) "views" =
        dictLookup postDict "views" ∧
      dictLookup (applyKwargs hostileKwargs postDict) "id" =
        dictLookup postDict "id" ∧
      dictLookup (applyKwargs hostileKwargs postDict) "title" =
        some (.vStr "new") ∧
      postCtrlUpdate pmInitial 1 "t" "c" none = (.error .NotFound, pmInitial) :=
  ⟨(post_update_frame postDict hostileKwargs).1 "views" (by decide),
   (post_update_frame postDict hostileKwargs).1 "id" (by decide),
   rfl,
   ((post_update_frame postDict hostileKwargs).2.2.2 pmInitial 1 "t" "c" none
      none none none rfl).1⟩

/-- Alphabet of create/delete scripts against one `PostModel` instance. -/
inductive PCdOp
  | create (title content : String) (author_id : Int)
      (author_nickname : String)
      (author_profile_image image_url : Option String) (created_at : Nat)
  | delete (pid : Int)

/-- Run a create/delete script, collecting in call order the ids that
`PostModel.create` hands out. -/
def pmTraceIds : PMState → List PCdOp → List Int
  | _, [] => []
  | s, PCdOp.create t c aid an ap img ts :: ops =>
    let r := pmCreate s t c aid an ap img ts
    r.1.id :: pmTraceIds r.2 ops
  | s, PCdOp.delete pid :: ops => pmTraceIds (pmDelete s pid).2 ops

/-- Deletion never touches `_next_id`. -/
lemma pmDelete_next_id (s : PMState) (pid : Int) :
    (pmDelete s pid).2.next_id = s.next_id := by
  unfold pmDelete
  dsimp only
  split_ifs <;> rfl

/-- Every id a script hands out is at least the starting `_next_id`. -/
lemma pmTraceIds_lower (ops : List PCdOp) :
    ∀ s : PMState, ∀ i ∈ pmTraceIds s ops, s.next_id ≤ i := by
  induction ops with
  | nil =>
    intro s i hi
    simp [pmTraceIds] at hi
  | cons op rest ih =>
    intro s i hi
    cases op with
    | create t c aid an ap img ts =>
      rcases List.mem_cons.mp hi with h1 | h2
      · exact le_of_eq h1.symm
      · have hle := ih _ i h2
        simp only [pmCreate] at hle
        omega
    | delete pid =>
      have hle := ih _ i hi
      rw [pmDelete_next_id] at hle
      exact hle

/-- Ids handed out by a post-model script strictly increase. -/
lemma pmTraceIds_pairwise (ops : List PCdOp) :
    ∀ s : PMState, (pmTraceIds s ops).Pairwise (· < ·) := by
  induction ops with
  | nil => intro s; simp [pmTraceIds]
  | cons op rest ih =>
    intro s
    cases op with
    | create t c aid an ap img ts =>
      refine List.pairwise_cons.mpr ⟨fun i hi => ?_, ih _⟩
      have hle := pmTraceIds_lower rest _ i hi
      simp only [pmCreate] at hle ⊢
      omega
    | delete pid => exact ih _

/-- Alphabet of create/delete scripts against one `CommentModel` instance. -/
inductive CCdOp
  | create (post_id author_id : Int) (author_nickname : String)
      (author_profile_image : Option String) (content : String)
      (created_at : Nat)
  | delete (cid : Int)

/-- Run a comment create/delete script, collecting the ids that
`CommentModel.create` hands out. -/
def cmTraceIds : CMState → List CCdOp → List Int
  | _, [] => []
  | s, CCdOp.create pid aid an ap c ts :: ops =>
    let r := cmCreate s pid aid an ap c ts
    r.1.id :: cmTraceIds r.2 ops
  | s, CCdOp.delete cid :: ops => cmTraceIds (cmDelete s cid).2 ops

/-- Every id a comment script hands out is at least the starting
`_next_id`. -/
lemma cmTraceIds_lower (ops : List CCdOp) :
    ∀ s : CMState, ∀ i ∈ cmTraceIds s ops, s.next_id ≤ i := by
  induction ops with
  | nil =>
    intro s i hi
    simp [cmTraceIds] at hi
  | cons op rest ih =>
    intro s i hi
    cases op with
    | create pid aid an ap c ts =>
      rcases List.mem_cons.mp hi with h1 | h2
      · exact le_of_eq h1.symm
      · have hle := ih _ i h2
        simp only [cmCreate] at hle
        omega
    | delete cid =>
      have hle := ih _ i hi
      simpa [cmDelete] using hle

/-- Ids handed out by a comment-model script strictly increase. -/
lemma cmTraceIds_pairwise (ops : List CCdOp) :
    ∀ s : CMState, (cmTraceIds s ops).Pairwise (· < ·) := by
  induction ops with
  | nil => intro s; simp [cmTraceIds]
  | cons op rest ih =>
    intro s
    cases op with
    | create pid aid an ap c ts =>
      refine List.pairwise_cons.mpr ⟨fun i hi => ?_, ih _⟩
      have hle := cmTraceIds_lower rest _ i hi
      simp only [cmCreate] at hle ⊢
      omega
    | delete cid => exact ih _

/-- C10: over any sequence of create and delete operations on a fresh
`PostModel` or `CommentModel`, the ids handed out by create strictly
increase in call order — hence are pairwise distinct, so deleted ids are
never reused. -/
theorem create_ids_strictly_increase (pops : List PCdOp) (cops : List CCdOp) :
    (pmTraceIds pmInitial pops).Pairwise (· < ·) ∧
      (pmTraceIds pmInitial pops).Nodup ∧
      (cmTraceIds cmInitial cops).Pairwise (· < ·) ∧
      (cmTraceIds cmInitial cops).Nodup :=
  ⟨pmTraceIds_pairwise pops pmInitial,
   (pmTraceIds_pairwise pops pmInitial).imp ne_of_lt,
   cmTraceIds_pairwise cops cmInitial,
   (cmTraceIds_pairwise cops cmInitial).imp ne_of_lt⟩

/-- The typed field writes never change the counters or identity fields
(the non-title/content/image_url keys are all in `immutable_fields`). -/
lemma applyUpdateFields_counters (t c i : Option String) (p : Post) :
    (applyUpdateFields t c i p).views = p.views ∧
      (applyUpdateFields t c i p).likes = p.likes ∧
      (applyUpdateFields t c i p).comment_count = p.comment_count := by
  unfold applyUpdateFields
  cases t <;> cases c <;> cases i <;> simp

/-- Elements of the rewritten list are either old elements or the rewrite of
an old element. -/
lemma mem_mutateFirst_snd (pid : Int) (f : Post → Post) (l : List Post) :
    ∀ q ∈ (mutateFirst pid f l).2, q ∈ l ∨ ∃ p ∈ l, q = f p := by
  induction l with
  | nil =>
    intro q hq
    simp [mutateFirst] at hq
  | cons p ps ih =>
    intro q hq
    by_cases hp : (p.id == pid) = true
    · simp only [mutateFirst, hp, if_true] at hq
      rcases List.mem_cons.mp hq with h1 | h2
      · exact Or.inr ⟨p, List.mem_cons_self p ps, h1⟩
      · exact Or.inl (List.mem_cons_of_mem p h2)
    · simp only [mutateFirst, hp] at hq
      rcases List.mem_cons.mp hq with h1 | h2
      · exact Or.inl (h1 ▸ List.mem_cons_self p ps)
      · rcases ih q h2 with h3 | ⟨r, hr, he⟩
        · exact Or.inl (List.mem_cons_of_mem p h3)
        · exact Or.inr ⟨r, List.mem_cons_of_mem p hr, he⟩

/-- Removal only drops elements. -/
lemma mem_removeFirstPost_snd (pid : Int) (l : List Post) :
    ∀ q ∈ (removeFirstPost pid l).2, q ∈ l := by
  induction l with
  | nil =>
    intro q hq
    simp [removeFirstPost] at hq
  | cons p ps ih =>
    intro q hq
    by_cases hp : (p.id == pid) = true
    · simp only [removeFirstPost, hp, if_true] at hq
      exact List.mem_cons_of_mem p hq
    · simp only [removeFirstPost, hp] at hq
      rcases List.mem_cons.mp hq with h1 | h2
      · exact h1 ▸ List.mem_cons_self p ps
      · exact List.mem_cons_of_mem p (ih q h2)

/-- The full mutating operation alphabet of `PostModel`. -/
inductive POp
  | create (title content : String) (author_id : Int)
      (author_nickname : String)
      (author_profile_image image_url : Option String) (created_at : Nat)
  | update (pid : Int) (title content image_url : Option String)
  | delete (pid : Int)
  | deleteByAuthor (aid : Int)
  | incrementViews (pid : Int)
  | incrementCommentCount (pid : Int)
  | decrementCommentCount (pid : Int)
  | toggleLike (pid uid : Int)

/-- Execute one `PostModel` operation for its state effect. -/
def pmStep (s : PMState) : POp → PMState
  | .create t c aid an ap img ts => (pmCreate s t c aid an ap img ts).2
  | .update pid t c i => (pmUpdate s pid t c i).2
  | .delete pid => (pmDelete s pid).2
  | .deleteByAuthor aid => (pmDeleteByAuthor s aid).2
  | .incrementViews pid => (pmIncrementViews s pid).2
  | .incrementCommentCount pid => (pmIncrementCommentCount s pid).2
  | .decrementCommentCount pid => (pmDecrementCommentCount s pid).2
  | .toggleLike pid uid => (pmToggleLike s pid uid).2

/-- Run a sequence of `PostModel` operations. -/
def pmRun (s : PMState) (ops : List POp) : PMState := ops.foldl pmStep s

/-- Every stored post has non-negative views, likes and comment count. -/
def CountersNonneg (s : PMState) : Prop :=
  ∀ p ∈ s.posts, 0 ≤ p.views ∧ 0 ≤ p.likes ∧ 0 ≤ p.comment_count

/-- Every single `PostModel` operation preserves counter non-negativity:
increments only grow, and both decrementing sites clamp at zero with
`max(0, _ - 1)`. -/
lemma pmStep_counters (s : PMState) (op : POp) (h : CountersNonneg s) :
    CountersNonneg (pmStep s op) := by
  cases op with
  | create t c aid an ap img ts =>
    intro p hp
    rcases List.mem_append.mp hp with h1 | h2
    · exact h p h1
    · simp at h2
      simp [h2]
  | update pid t c i =>
    intro p hp
    rcases mem_mutateFirst_snd pid _ s.posts p hp with h1 | ⟨r, hr, he⟩
    · exact h p h1
    · obtain ⟨hv, hl, hc⟩ := applyUpdateFields_counters t c i r
      rw [he, hv, hl, hc]
      exact h r hr
  | delete pid =>
    intro p hp
    simp only [pmStep] at hp
    unfold pmDelete at hp
    dsimp only at hp
    split_ifs at hp
    · exact h p (mem_removeFirstPost_snd pid s.posts p hp)
    · exact h p hp
  | deleteByAuthor aid =>
    intro p hp
    exact h p (List.mem_of_mem_filter hp)
  | incrementViews pid =>
    intro p hp
    rcases mem_mutateFirst_snd pid _ s.posts p hp with h1 | ⟨r, hr, he⟩
    · exact h p h1
    · obtain ⟨hv, hl, hc⟩ := h r hr
      subst he
      refine ⟨by simpa using le_trans hv (by omega), by simpa using hl,
        by simpa using hc⟩
  | incrementCommentCount pid =>
    intro p hp
    rcases mem_mutateFirst_snd pid _ s.posts p hp with h1 | ⟨r, hr, he⟩
    · exact h p h1
    · obtain ⟨hv, hl, hc⟩ := h r hr
      subst he
      refine ⟨by simpa using hv, by simpa using hl,
        by simpa using le_trans hc (by omega)⟩
  | decrementCommentCount pid =>
    intro p hp
    rcases mem_mutateFirst_snd pid _ s.posts p hp with h1 | ⟨r, hr, he⟩
    · exact h p h1
    · obtain ⟨hv, hl, hc⟩ := h r hr
      subst he
      exact ⟨by simpa using hv, by simpa using hl, by simp⟩
  | toggleLike pid uid =>
    intro p hp
    simp only [pmStep] at hp
    unfold pmToggleLike at hp
    dsimp only at hp
    split_ifs at hp with h1 h2
    · rcases mem_mutateFirst_snd pid _ s.posts p hp with h3 | ⟨r, hr, he⟩
      · exact h p h3
      · obtain ⟨hv, hl, hc⟩ := h r hr
        subst he
        exact ⟨by simpa using hv, by simp, by simpa using hc⟩
    · rcases mem_mutateFirst_snd pid _ s.posts p hp with h3 | ⟨r, hr, he⟩
      · exact h p h3
      · obtain ⟨hv, hl, hc⟩ := h r hr
        subst he
        exact ⟨by simpa using hv, by simpa using le_trans hl (by omega),
          by simpa using hc⟩
    · exact h p hp

/-- C9: in every state reachable from a fresh `PostModel()` by any operation
sequence, every stored post has views ≥ 0, likes ≥ 0 and comment_count ≥ 0. -/
theorem reachable_counters_nonneg (ops : List POp) :
    ∀ p ∈ (pmRun pmInitial ops).posts,
      0 ≤ p.views ∧ 0 ≤ p.likes ∧ 0 ≤ p.comment_count := by
  have main : ∀ (l : List POp) (s : PMState),
      CountersNonneg s → CountersNonneg (pmRun s l) := by
    intro l
    induction l with
    | nil => intro s hs; exact hs
    | cons op rest ih =>
      intro s hs
      exact ih (pmStep s op) (pmStep_counters s op hs)
  exact main ops pmInitial (by intro p hp; simp [pmInitial] at hp)

/-- Fixture: an operation script that exercises create, a like toggle and
the clamped comment-count decrement. -/
def c9Ops : List POp :=
  [POp.create "t" "c" 1 "a" none none 5, POp.toggleLike 1 2,
   POp.decrementCommentCount 1]

/-- Witness for C9 at a concrete reachable state. -/
theorem reachable_counters_nonneg_witness :
    (⟨1, "t", "c", none, 1, "a", none, 5, 0, 1, 0⟩ : Post) ∈
        (pmRun pmInitial c9Ops).posts ∧
      (0 ≤ (⟨1, "t", "c", none, 1, "a", none, 5, 0, 1, 0⟩ : Post).views ∧
        0 ≤ (⟨1, "t", "c", none, 1, "a", none, 5, 0, 1, 0⟩ : Post).likes ∧
        0 ≤ (⟨1, "t", "c", none, 1, "a", none, 5, 0, 1, 0⟩ : Post).comment_count) :=
  ⟨by decide,
   reachable_counters_nonneg c9Ops ⟨1, "t", "c", none, 1, "a", none, 5, 0, 1, 0⟩
     (by decide)⟩

/-- Target order of C8: created_at ascending with same-timestamp ties broken
by id ascending (strict, since stored ids are distinct). -/
def commentLexLT (a b : Comment) : Prop :=
  a.created_at < b.created_at ∨ (a.created_at = b.created_at ∧ a.id < b.id)

/-- Inserting a comment whose id is below every id in a lexicographically
sorted list keeps the list lexicographically sorted: the stable insert puts
it in front of every equal-timestamp entry, which is exactly id order. -/
lemma orderedInsert_lex (x : Comment) (l : List Comment)
    (hs : l.Pairwise commentLexLT) (hid : ∀ y ∈ l, x.id < y.id) :
    (List.orderedInsert commentLE x l).Pairwise commentLexLT := by
  induction l with
  | nil => simp
  | cons y ys ih =>
    rcases List.pairwise_cons.mp hs with ⟨hy, hys⟩
    by_cases hle : commentLE x y
    · rw [List.orderedInsert_of_le commentLE ys hle]
      refine List.pairwise_cons.mpr ⟨?_, hs⟩
      intro z hz
      rcases List.mem_cons.mp hz with rfl | hzys
      · rcases lt_or_eq_of_le hle with h1 | h1
        · exact Or.inl h1
        · exact Or.inr ⟨h1, hid z (List.mem_cons_self z ys)⟩
      · have hyz := hy z hzys
        have hyzle : y.created_at ≤ z.created_at := by
          rcases hyz with h1 | h1
          · exact le_of_lt h1
          · exact le_of_eq h1.1
        rcases lt_or_eq_of_le (le_trans hle hyzle) with h1 | h1
        · exact Or.inl h1
        · exact Or.inr ⟨h1, hid z (List.mem_cons_of_mem y hzys)⟩
    · have hlt : y.created_at < x.created_at := by
        simpa [commentLE] using hle
      simp only [List.orderedInsert, if_neg hle]
      refine List.pairwise_cons.mpr
        ⟨?_, ih hys (fun z hz => hid z (List.mem_cons_of_mem y hz))⟩
      intro z hz
      rcases (List.mem_orderedInsert commentLE).mp hz with rfl | hzys
      · exact Or.inl hlt
      · exact hy z hzys

/-- The stable sort by created_at of a list with strictly increasing ids is
sorted by (created_at, id) lexicographically. -/
lemma insertionSort_lex (l : List Comment)
    (hid : l.Pairwise (fun a b => a.id < b.id)) :
    (List.insertionSort commentLE l).Pairwise commentLexLT := by
  induction l with
  | nil => simp
  | cons x xs ih =>
    rcases List.pairwise_cons.mp hid with ⟨hx, hxs⟩
    simp only [List.insertionSort]
    refine orderedInsert_lex x _ (ih hxs) ?_
    intro y hy
    exact hx y ((List.perm_insertionSort commentLE xs).mem_iff.mp hy)

/-- C8: in a comment store with strictly increasing stored ids (as every
store built by `CommentModel` is), `find_by_post` returns exactly the
comments of the post — a permutation of the filter — ordered by created_at
ascending with ties broken by id ascending; and `create` preserves the id
invariant for any timestamp, including one older than every stored comment,
so the ordering guarantee survives such insertions. -/
theorem comments_ordered_by_created_at (s : CMState) (pid : Int)
    (hid : s.comments.Pairwise (fun a b => a.id < b.id))
    (hbound : ∀ c ∈ s.comments, c.id < s.next_id) :
    List.Perm (cmFindByPost s pid)
        (s.comments.filter (fun c => c.post_id == pid)) ∧
      (cmFindByPost s pid).Pairwise commentLexLT ∧
      ∀ (post_id author_id : Int) (an : String) (ap : Option String)
        (content : String) (ts : Nat),
        (cmCreate s post_id author_id an ap content ts).2.comments.Pairwise
            (fun a b => a.id < b.id) ∧
          ∀ c ∈ (cmCreate s post_id author_id an ap content ts).2.comments,
            c.id < (cmCreate s post_id author_id an ap content ts).2.next_id := by
  refine ⟨List.perm_insertionSort commentLE _, ?_, ?_⟩
  · exact insertionSort_lex _ (hid.sublist (List.filter_sublist _))
  · intro post_id author_id an ap content ts
    constructor
    · simp only [cmCreate]
      rw [List.pairwise_append]
      refine ⟨hid, List.pairwise_singleton _ _, ?_⟩
      intro a ha b hb
      simp only [List.mem_singleton] at hb
      subst hb
      exact hbound a ha
    · intro c hc
      rcases List.mem_append.mp hc with h1 | h2
      · have := hbound c h1
        simp only [cmCreate]
        omega
      · simp only [List.mem_singleton] at h2
        subst h2
        simp [cmCreate]

/-- Fixture: comment store on post 7 with a created_at tie (ids 1 and 2 at
time 10) and a later-inserted comment (id 3) carrying the older time 5. -/
def tieCM : CMState :=
  ⟨[⟨1, 7, 1, "a", none, "c1", 10⟩, ⟨2, 7, 1, "a", none, "c2", 10⟩,
    ⟨3, 7, 1, "a", none, "c3", 5⟩], 4⟩

/-- Witness for C8: on the concrete tie store the backfilled old comment
sorts first and the tie stays in id order. -/
theorem comments_ordered_by_created_at_witness :
    cmFindByPost tieCM 7 =
        [⟨3, 7, 1, "a", none, "c3", 5⟩, ⟨1, 7, 1, "a", none, "c1", 10⟩,
         ⟨2, 7, 1, "a", none, "c2", 10⟩] ∧
      (cmFindByPost tieCM 7).Pairwise commentLexLT :=
  ⟨rfl, (comments_ordered_by_created_at tieCM 7 (by decide) (by decide)).2.1⟩

/-- Number of users whose like set contains the post — what the cached
`likes` column must equal. -/
def likerCount (ul : List (Int × List Int)) (pid : Int) : Int :=
  (ul.countP (fun e => e.2.contains pid) : Int)

/-- The cached like counter of every stored post agrees with the Like
association rows. -/
def LikesConsistent (s : PMState) : Prop :=
  ∀ p ∈ s.posts, p.likes = likerCount s.user_likes p.id

/-- Well-formedness that every state built by `PostModel` operations enjoys:
distinct post ids, distinct like-dict keys, and consistent like counters. -/
def PMGood (s : PMState) : Prop :=
  (s.posts.map Post.id).Nodup ∧ (s.user_likes.map Prod.fst).Nodup ∧
    LikesConsistent s

/-- A failed search on the first block of an append skips it. -/
lemma find?_append_left_none {α : Type} (p : α → Bool) (l₁ l₂ : List α)
    (h : l₁.find? p = none) : (l₁ ++ l₂).find? p = l₂.find? p := by
  induction l₁ with
  | nil => rfl
  | cons a l ih =>
    by_cases ha : p a = true
    · simp [List.find?, ha] at h
    · simp only [List.find?, ha] at h
      simp only [List.cons_append, List.find?, ha]
      exact ih h

/-- Ensuring a user's like set exists never changes any count. -/
lemma likerCount_ulEnsure (ul : List (Int × List Int)) (uid qid : Int) :
    likerCount (ulEnsure ul uid) qid = likerCount ul qid := by
  unfold ulEnsure
  split_ifs
  · rfl
  · unfold likerCount
    rw [List.countP_append]
    simp

/-- Ensuring a user's like set exists never changes membership. -/
lemma ulMember_ulEnsure (ul : List (Int × List Int)) (uid pid : Int) :
    ulMember (ulEnsure ul uid) uid pid = ulMember ul uid pid := by
  unfold ulEnsure
  split_ifs with hany
  · rfl
  · have hnone : ul.find? (fun e => e.1 == uid) = none := by
      refine List.find?_eq_none.mpr fun e he => ?_
      intro hpe
      exact hany (List.any_eq_true.mpr ⟨e, he, hpe⟩)
    unfold ulMember ulFind
    rw [find?_append_left_none _ _ _ hnone, hnone]
    simp [List.find?]

/-- After ensuring, the user's entry is present. -/
lemma ulEnsure_find (ul : List (Int × List Int)) (uid : Int) :
    ∃ ent, (ulEnsure ul uid).find? (fun e => e.1 == uid) = some ent ∧
      ent.1 = uid := by
  unfold ulEnsure
  split_ifs with hany
  · rcases List.any_eq_true.mp hany with ⟨e, he, hpe⟩
    have hsome : (ul.find? (fun e => e.1 == uid)).isSome :=
      List.find?_isSome.mpr ⟨e, he, hpe⟩
    rcases Option.isSome_iff_exists.mp hsome with ⟨ent, hent⟩
    exact ⟨ent, hent, by simpa using List.find?_some hent⟩
  · have hnone : ul.find? (fun e => e.1 == uid) = none := by
      refine List.find?_eq_none.mpr fun e he => ?_
      intro hpe
      exact hany (List.any_eq_true.mpr ⟨e, he, hpe⟩)
    refine ⟨(uid, []), ?_, rfl⟩
    rw [find?_append_left_none _ _ _ hnone]
    simp [List.find?]

/-- Ensuring preserves distinctness of the like-dict keys. -/
lemma ulEnsure_fst_nodup (ul : List (Int × List Int)) (uid : Int)
    (h : (ul.map Prod.fst).Nodup) : ((ulEnsure ul uid).map Prod.fst).Nodup := by
  unfold ulEnsure
  split_ifs with hany
  · exact h
  · rw [List.map_append]
    refine List.Nodup.append h (List.nodup_singleton uid) ?_
    intro a ha hb
    simp only [List.map, List.mem_singleton] at hb
    subst hb
    rcases List.mem_map.mp ha with ⟨e, he, hfst⟩
    exact hany (List.any_eq_true.mpr ⟨e, he, by simp [hfst]⟩)

/-- `set.add` keeps every dict key in place. -/
lemma ulAdd_fst (ul : List (Int × List Int)) (uid pid : Int) :
    (ulAdd ul uid pid).map Prod.fst = ul.map Prod.fst := by
  unfold ulAdd
  rw [List.map_map]
  refine List.map_congr_left fun e he => ?_
  simp only [Function.comp]
  split <;> rfl

/-- `set.remove` keeps every dict key in place. -/
lemma ulRemove_fst (ul : List (Int × List Int)) (uid pid : Int) :
    (ulRemove ul uid pid).map Prod.fst = ul.map Prod.fst := by
  unfold ulRemove
  rw [List.map_map]
  refine List.map_congr_left fun e he => ?_
  simp only [Function.comp]
  split <;> rfl

/-- The first entry for the user after `set.add` is the old one with the
post id pushed in. -/
lemma ulAdd_find (ul : List (Int × List Int)) (uid pid : Int)
    (ent : Int × List Int)
    (h : ul.find? (fun e => e.1 == uid) = some ent) :
    (ulAdd ul uid pid).find? (fun e => e.1 == uid) =
      some (ent.1, pid :: ent.2) := by
  induction ul with
  | nil => simp at h
  | cons e es ih =>
    by_cases he : (e.1 == uid) = true
    · simp only [List.find?, he, Option.some.injEq] at h
      subst h
      simp [ulAdd, List.find?, he]
    · simp only [List.find?, he] at h
      simp only [ulAdd, List.map, he, if_neg, Bool.not_eq_true]
      simp only [List.find?, he]
      exact ih h

/-- The first entry for the user after `set.remove` is the old one with the
post id filtered out. -/
lemma ulRemove_find (ul : List (Int × List Int)) (uid pid : Int)
    (ent : Int × List Int)
    (h : ul.find? (fun e => e.1 == uid) = some ent) :
    (ulRemove ul uid pid).find? (fun e => e.1 == uid) =
      some (ent.1, ent.2.filter (fun q => q != pid)) := by
  induction ul with
  | nil => simp at h
  | cons e es ih =>
    by_cases he : (e.1 == uid) = true
    · simp only [List.find?, he, Option.some.injEq] at h
      subst h
      simp [ulRemove, List.find?, he]
    · simp only [List.find?, he] at h
      simp only [ulRemove, List.map, he, if_neg, Bool.not_eq_true]
      simp only [List.find?, he]
      exact ih h

/-- Pushing a different post id onto a set does not affect membership of
`qid`. -/
lemma contains_cons_ne (l : List Int) (pid qid : Int) (h : qid ≠ pid) :
    (pid :: l).contains qid = l.contains qid := by
  simp [h]

/-- Filtering out a different post id does not affect membership of `qid`. -/
lemma contains_filter_ne (l : List Int) (pid qid : Int) (h : qid ≠ pid) :
    (l.filter (fun q => q != pid)).contains qid = l.contains qid := by
  simp [List.mem_filter, h]

/-- `set.add` on entries whose key is not the target is the identity. -/
lemma ulAdd_of_all_ne (ul : List (Int × List Int)) (uid pid : Int)
    (h : ∀ e ∈ ul, (e.1 == uid) = false) : ulAdd ul uid pid = ul := by
  induction ul with
  | nil => rfl
  | cons e es ih =>
    have h1 := h e (List.mem_cons_self e es)
    have ih2 := ih fun e2 he2 => h e2 (List.mem_cons_of_mem e he2)
    simp only [ulAdd, List.map] at ih2 ⊢
    rw [if_neg (by simp [h1]), ih2]

/-- `set.remove` on entries whose key is not the target is the identity. -/
lemma ulRemove_of_all_ne (ul : List (Int × List Int)) (uid pid : Int)
    (h : ∀ e ∈ ul, (e.1 == uid) = false) : ulRemove ul uid pid = ul := by
  induction ul with
  | nil => rfl
  | cons e es ih =>
    have h1 := h e (List.mem_cons_self e es)
    have ih2 := ih fun e2 he2 => h e2 (List.mem_cons_of_mem e he2)
    simp only [ulRemove, List.map] at ih2 ⊢
    rw [if_neg (by simp [h1]), ih2]

/-- Under distinct dict keys, adding the post to the (unique) entry of a
user that does not yet hold it raises the liker count by one. -/
lemma countP_ulAdd (uid pid : Int) :
    ∀ (ul : List (Int × List Int)) (ent : Int × List Int),
      (ul.map Prod.fst).Nodup →
      ul.find? (fun e => e.1 == uid) = some ent →
      ent.2.contains pid = false →
      (ulAdd ul uid pid).countP (fun e => e.2.contains pid) =
        ul.countP (fun e => e.2.contains pid) + 1 := by
  intro ul
  induction ul with
  | nil =>
    intro ent hnd h hc
    simp at h
  | cons e es ih =>
    intro ent hnd h hc
    by_cases he : (e.1 == uid) = true
    · simp only [List.find?, he, Option.some.injEq] at h
      subst h
      have heq : e.1 = uid := by simpa using he
      rw [List.map_cons] at hnd
      have hni : e.1 ∉ es.map Prod.fst := (List.nodup_cons.mp hnd).1
      have htail : ∀ e2 ∈ es, (e2.1 == uid) = false := by
        intro e2 he2
        have hne : e2.1 ≠ e.1 := fun hcontra =>
          hni (hcontra ▸ List.mem_map.mpr ⟨e2, he2, rfl⟩)
        simp only [beq_eq_false_iff_ne, ne_eq]
        rw [heq] at hne
        exact hne
      have hadd := ulAdd_of_all_ne es uid pid htail
      have hc2 : pid ∉ e.2 := by simpa using hc
      simp only [ulAdd, List.map, he, if_pos] at hadd ⊢
      rw [List.countP_cons, List.countP_cons, hadd]
      simp [hc2]
    · simp only [List.find?, he] at h
      rw [List.map_cons] at hnd
      have hnd2 : (es.map Prod.fst).Nodup := (List.nodup_cons.mp hnd).2
      have ihh := ih ent hnd2 h hc
      simp only [ulAdd, List.map, he, if_neg, Bool.not_eq_true] at ihh ⊢
      rw [List.countP_cons, List.countP_cons, ihh]
      omega

/-- Under distinct dict keys, removing the post from the (unique) entry of a
user that holds it lowers the liker count by one. -/
lemma countP_ulRemove (uid pid : Int) :
    ∀ (ul : List (Int × List Int)) (ent : Int × List Int),
      (ul.map Prod.fst).Nodup →
      ul.find? (fun e => e.1 == uid) = some ent →
      ent.2.contains pid = true →
      ul.countP (fun e => e.2.contains pid) =
        (ulRemove ul uid pid).countP (fun e => e.2.contains pid) + 1 := by
  intro ul
  induction ul with
  | nil =>
    intro ent hnd h hc
    simp at h
  | cons e es ih =>
    intro ent hnd h hc
    by_cases he : (e.1 == uid) = true
    · simp only [List.find?, he, Option.some.injEq] at h
      subst h
      have heq : e.1 = uid := by simpa using he
      rw [List.map_cons] at hnd
      have hni : e.1 ∉ es.map Prod.fst := (List.nodup_cons.mp hnd).1
      have htail : ∀ e2 ∈ es, (e2.1 == uid) = false := by
        intro e2 he2
        have hne : e2.1 ≠ e.1 := fun hcontra =>
          hni (hcontra ▸ List.mem_map.mpr ⟨e2, he2, rfl⟩)
        simp only [beq_eq_false_iff_ne, ne_eq]
        rw [heq] at hne
        exact hne
      have hrem := ulRemove_of_all_ne es uid pid htail
      have hc2 : pid ∈ e.2 := by simpa using hc
      simp only [ulRemove, List.map, he, if_pos] at hrem ⊢
      rw [List.countP_cons, List.countP_cons, hrem]
      simp [hc2]
    · simp only [List.find?, he] at h
      rw [List.map_cons] at hnd
      have hnd2 : (es.map Prod.fst).Nodup := (List.nodup_cons.mp hnd).2
      have ihh := ih ent hnd2 h hc
      simp only [ulRemove, List.map, he, if_neg, Bool.not_eq_true] at ihh ⊢
      rw [List.countP_cons, List.countP_cons]
      omega

/-- Adding a like for `pid` does not change the liker count of any other
post. -/
lemma countP_ulAdd_other (ul : List (Int × List Int)) (uid pid qid : Int)
    (h : qid ≠ pid) :
    (ulAdd ul uid pid).countP (fun e => e.2.contains qid) =
      ul.countP (fun e => e.2.contains qid) := by
  induction ul with
  | nil => rfl
  | cons e es ih =>
    by_cases he : (e.1 == uid) = true
    · simp only [ulAdd, List.map, he, if_pos] at ih ⊢
      rw [List.countP_cons, List.countP_cons, ih]
      simp only [contains_cons_ne e.2 pid qid h]
    · simp only [ulAdd, List.map, he, if_neg, Bool.not_eq_true] at ih ⊢
      rw [List.countP_cons, List.countP_cons, ih]

/-- Removing a like for `pid` does not change the liker count of any other
post. -/
lemma countP_ulRemove_other (ul : List (Int × List Int)) (uid pid qid : Int)
    (h : qid ≠ pid) :
    (ulRemove ul uid pid).countP (fun e => e.2.contains qid) =
      ul.countP (fun e => e.2.contains qid) := by
  induction ul with
  | nil => rfl
  | cons e es ih =>
    by_cases he : (e.1 == uid) = true
    · simp only [ulRemove, List.map, he, if_pos] at ih ⊢
      rw [List.countP_cons, List.countP_cons, ih]
      simp only [contains_filter_ne e.2 pid qid h]
    · simp only [ulRemove, List.map, he, if_neg, Bool.not_eq_true] at ih ⊢
      rw [List.countP_cons, List.countP_cons, ih]

/-- Removing a post id from a set really removes it. -/
lemma contains_filter_self (l : List Int) (pid : Int) :
    (l.filter (fun q => q != pid)).contains pid = false := by
  simp

/-- After `set.add`, the user's set holds the post. -/
lemma ulMember_ulAdd_self (ul : List (Int × List Int)) (uid pid : Int)
    (ent : Int × List Int)
    (hent : ul.find? (fun e => e.1 == uid) = some ent) :
    ulMember (ulAdd ul uid pid) uid pid = true := by
  unfold ulMember ulFind
  rw [ulAdd_find ul uid pid ent hent]
  simp

/-- After `set.remove`, the user's set no longer holds the post. -/
lemma ulMember_ulRemove_self (ul : List (Int × List Int)) (uid pid : Int)
    (ent : Int × List Int)
    (hent : ul.find? (fun e => e.1 == uid) = some ent) :
    ulMember (ulRemove ul uid pid) uid pid = false := by
  unfold ulMember ulFind
  rw [ulRemove_find ul uid pid ent hent]
  simp

/-- Integer form of the add-count lemma. -/
lemma likerCount_ulAdd_self (ul : List (Int × List Int)) (uid pid : Int)
    (ent : Int × List Int) (hnd : (ul.map Prod.fst).Nodup)
    (hent : ul.find? (fun e => e.1 == uid) = some ent)
    (hc : ent.2.contains pid = false) :
    likerCount (ulAdd ul uid pid) pid = likerCount ul pid + 1 := by
  unfold likerCount
  have := countP_ulAdd uid pid ul ent hnd hent hc
  omega

/-- Integer form of the remove-count lemma. -/
lemma likerCount_ulRemove_self (ul : List (Int × List Int)) (uid pid : Int)
    (ent : Int × List Int) (hnd : (ul.map Prod.fst).Nodup)
    (hent : ul.find? (fun e => e.1 == uid) = some ent)
    (hc : ent.2.contains pid = true) :
    likerCount (ulRemove ul uid pid) pid = likerCount ul pid - 1 := by
  unfold likerCount
  have := countP_ulRemove uid pid ul ent hnd hent hc
  omega

/-- Integer form of the other-post count stability lemmas. -/
lemma likerCount_ulAdd_other (ul : List (Int × List Int)) (uid pid qid : Int)
    (h : qid ≠ pid) :
    likerCount (ulAdd ul uid pid) qid = likerCount ul qid := by
  unfold likerCount
  rw [countP_ulAdd_other ul uid pid qid h]

/-- Integer form of the other-post count stability lemma for removal. -/
lemma likerCount_ulRemove_other (ul : List (Int × List Int)) (uid pid qid : Int)
    (h : qid ≠ pid) :
    likerCount (ulRemove ul uid pid) qid = likerCount ul qid := by
  unfold likerCount
  rw [countP_ulRemove_other ul uid pid qid h]

/-- A user whose set holds the post contributes to the liker count. -/
lemma likerCount_pos (ul : List (Int × List Int)) (uid pid : Int)
    (ent : Int × List Int)
    (hent : ul.find? (fun e => e.1 == uid) = some ent)
    (hc : ent.2.contains pid = true) : 1 ≤ likerCount ul pid := by
  unfold likerCount
  have : 0 < ul.countP (fun e => e.2.contains pid) :=
    List.countP_pos_iff.mpr
      ⟨ent, List.mem_of_find?_eq_some hent, by simpa using hc⟩
  omega

/-- Splitting a list at the post `find?` locates: the rewrite touches that
occurrence alone. -/
lemma mutateFirst_decomp (pid : Int) (f : Post → Post) :
    ∀ (l : List Post) (p : Post), l.find? (fun q => q.id == pid) = some p →
      ∃ l₁ l₂, l = l₁ ++ p :: l₂ ∧
        (mutateFirst pid f l).2 = l₁ ++ f p :: l₂ ∧
        ∀ q ∈ l₁, (q.id == pid) = false := by
  intro l
  induction l with
  | nil =>
    intro p h
    simp at h
  | cons q qs ih =>
    intro p h
    by_cases hq : (q.id == pid) = true
    · simp only [List.find?, hq, Option.some.injEq] at h
      subst h
      exact ⟨[], qs, rfl, by simp [mutateFirst, hq], by simp⟩
    · simp only [List.find?, hq] at h
      obtain ⟨l₁, l₂, hl, hsnd, hl₁⟩ := ih p h
      refine ⟨q :: l₁, l₂, by rw [List.cons_append, ← hl], ?_, ?_⟩
      · simp only [mutateFirst, hq, if_neg, Bool.not_eq_true]
        rw [List.cons_append]
        rw [← hsnd]
      · intro x hx
        rcases List.mem_cons.mp hx with h1 | h2
        · subst h1
          simpa using hq
        · exact hl₁ x h2

/-- Searching past a prefix of non-matches finds the middle element. -/
lemma find?_middle (pred : Post → Bool) (l₁ l₂ : List Post) (x : Post)
    (h1 : ∀ q ∈ l₁, pred q = false) (hx : pred x = true) :
    (l₁ ++ x :: l₂).find? pred = some x := by
  have hnone : l₁.find? pred = none :=
    List.find?_eq_none.mpr fun q hq => by simp [h1 q hq]
  rw [find?_append_left_none pred l₁ (x :: l₂) hnone]
  simp [List.find?, hx]

/-- Unfolding of the unlike branch of `toggle_like`. -/
lemma pmToggleLike_eq_remove (s : PMState) (pid uid : Int) (p : Post)
    (hfind : pmFindById s pid = some p)
    (hm : ulMember (ulEnsure s.user_likes uid) uid pid = true) :
    pmToggleLike s pid uid =
      ((mutateFirst pid (fun q => { q with likes := max 0 (q.likes - 1) })
          s.posts).1.map (fun q => (q, false)),
       ⟨(mutateFirst pid (fun q => { q with likes := max 0 (q.likes - 1) })
           s.posts).2,
        ulRemove (ulEnsure s.user_likes uid) uid pid, s.next_id⟩) := by
  unfold pmToggleLike
  rw [hfind]
  simp [hm]

/-- Unfolding of the like branch of `toggle_like`. -/
lemma pmToggleLike_eq_add (s : PMState) (pid uid : Int) (p : Post)
    (hfind : pmFindById s pid = some p)
    (hm : ulMember (ulEnsure s.user_likes uid) uid pid = false) :
    pmToggleLike s pid uid =
      ((mutateFirst pid (fun q => { q with likes := q.likes + 1 })
          s.posts).1.map (fun q => (q, true)),
       ⟨(mutateFirst pid (fun q => { q with likes := q.likes + 1 })
           s.posts).2,
        ulAdd (ulEnsure s.user_likes uid) uid pid, s.next_id⟩) := by
  unfold pmToggleLike
  rw [hfind]
  simp [hm]

/-- One `toggle_like` under well-formedness: it flips the Like membership,
reports the flipped status, moves the stored like counter by exactly one
(the `max(0, likes - 1)` clamp is inert because consistency forces
`likes ≥ 1` whenever the row exists), and preserves well-formedness. -/
lemma pmToggleLike_step (s : PMState) (pid uid : Int) (p : Post)
    (hgood : PMGood s) (hfind : pmFindById s pid = some p) :
    (pmToggleLike s pid uid).1 =
        some ({ p with likes := if ulMember s.user_likes uid pid then
                  p.likes - 1 else p.likes + 1 },
              ! ulMember s.user_likes uid pid) ∧
      pmFindById (pmToggleLike s pid uid).2 pid =
        some { p with likes := if ulMember s.user_likes uid pid then
                 p.likes - 1 else p.likes + 1 } ∧
      ulMember (pmToggleLike s pid uid).2.user_likes uid pid =
        (! ulMember s.user_likes uid pid) ∧
      PMGood (pmToggleLike s pid uid).2 := by
  obtain ⟨hndp, hndu, hcons⟩ := hgood
  have hfind' : s.posts.find? (fun q => q.id == pid) = some p := hfind
  have hppred : (p.id == pid) = true := by
    have h0 := List.find?_some hfind'
    exact h0
  have hpid : p.id = pid := by simpa using hppred
  have hpmem : p ∈ s.posts := List.mem_of_find?_eq_some hfind'
  have hplikes : p.likes = likerCount s.user_likes pid := by
    have h1 := hcons p hpmem
    rwa [hpid] at h1
  obtain ⟨ent, hent, hentfst⟩ := ulEnsure_find s.user_likes uid
  have hndu2 : ((ulEnsure s.user_likes uid).map Prod.fst).Nodup :=
    ulEnsure_fst_nodup s.user_likes uid hndu
  have hmem_ul : ulMember (ulEnsure s.user_likes uid) uid pid =
      ulMember s.user_likes uid pid := ulMember_ulEnsure s.user_likes uid pid
  have hentc : ent.2.contains pid = ulMember s.user_likes uid pid := by
    rw [← hmem_ul]
    simp [ulMember, ulFind, hent]
  by_cases hlb : ulMember s.user_likes uid pid = true
  · -- unlike branch
    have hm : ulMember (ulEnsure s.user_likes uid) uid pid = true := by
      rw [hmem_ul, hlb]
    have hc : ent.2.contains pid = true := by rw [hentc, hlb]
    have hge : 1 ≤ p.likes := by
      rw [hplikes, ← likerCount_ulEnsure s.user_likes uid pid]
      exact likerCount_pos _ uid pid ent hent hc
    have hmax : max 0 (p.likes - 1) = p.likes - 1 := by omega
    have htog := pmToggleLike_eq_remove s pid uid p hfind hm
    obtain ⟨l₁, l₂, hl, hsnd, hl₁⟩ :=
      mutateFirst_decomp pid (fun q => { q with likes := max 0 (q.likes - 1) })
        s.posts p hfind'
    have hr1 := mutateFirst_fst_of_find pid
      (fun q => { q with likes := max 0 (q.likes - 1) }) s.posts p hfind'
    have hfp : ({ p with likes := max 0 (p.likes - 1) } : Post) =
        { p with likes := p.likes - 1 } := by rw [hmax]
    have hidmap : ((mutateFirst pid
        (fun q => { q with likes := max 0 (q.likes - 1) })
        s.posts).2).map Post.id = s.posts.map Post.id := by
      rw [hsnd, hl]
      simp [List.map_append]
    refine ⟨?_, ?_, ?_, ?_, ?_, ?_⟩
    · rw [htog, hlb]
      simp only [hr1, Option.map_some, hfp]
      simp
    · rw [htog, hlb]
      simp only [pmFindById, hsnd]
      rw [find?_middle (fun q => q.id == pid) l₁ l₂
        ({ p with likes := max 0 (p.likes - 1) }) hl₁ hppred]
      rw [hfp]
      simp
    · rw [htog, hlb]
      simp [ulMember_ulRemove_self _ uid pid ent hent]
    · rw [htog]
      simpa [hidmap] using hndp
    · rw [htog]
      simpa [ulRemove_fst] using hndu2
    · rw [htog]
      intro q hq
      simp only [hsnd] at hq
      rcases List.mem_append.mp hq with hql | hqr
      · have hqne : q.id ≠ pid := by
          simpa using hl₁ q hql
        have hqmem : q ∈ s.posts := by
          rw [hl]
          exact List.mem_append_left _ hql
        rw [hcons q hqmem, ← likerCount_ulEnsure s.user_likes uid q.id,
          likerCount_ulRemove_other _ uid pid q.id hqne]
      · rcases List.mem_cons.mp hqr with hqf | hql₂
        · subst hqf
          show max 0 (p.likes - 1) =
            likerCount (ulRemove (ulEnsure s.user_likes uid) uid pid) p.id
          rw [hmax, hpid,
            likerCount_ulRemove_self _ uid pid ent hndu2 hent hc,
            likerCount_ulEnsure s.user_likes uid pid, ← hplikes]
        · have hpnotin : p.id ∉ l₂.map Post.id := by
            rw [hl, List.map_append] at hndp
            have h2 := hndp.of_append_right
            rw [List.map_cons] at h2
            exact (List.nodup_cons.mp h2).1
          have hqne : q.id ≠ pid := by
            intro he
            exact hpnotin
              ((hpid.trans he.symm) ▸ List.mem_map.mpr ⟨q, hql₂, rfl⟩)
          have hqmem : q ∈ s.posts := by
            rw [hl]
            exact List.mem_append_right _ (List.mem_cons_of_mem p hql₂)
          rw [hcons q hqmem, ← likerCount_ulEnsure s.user_likes uid q.id,
            likerCount_ulRemove_other _ uid pid q.id hqne]
  · -- like branch
    have hlbf : ulMember s.user_likes uid pid = false := by
      simpa using hlb
    have hm : ulMember (ulEnsure s.user_likes uid) uid pid = false := by
      rw [hmem_ul, hlbf]
    have hc : ent.2.contains pid = false := by rw [hentc, hlbf]
    have htog := pmToggleLike_eq_add s pid uid p hfind hm
    obtain ⟨l₁, l₂, hl, hsnd, hl₁⟩ :=
      mutateFirst_decomp pid (fun q => { q with likes := q.likes + 1 })
        s.posts p hfind'
    have hr1 := mutateFirst_fst_of_find pid
      (fun q => { q with likes := q.likes + 1 }) s.posts p hfind'
    have hidmap : ((mutateFirst pid (fun q => { q with likes := q.likes + 1 })
        s.posts).2).map Post.id = s.posts.map Post.id := by
      rw [hsnd, hl]
      simp [List.map_append]
    refine ⟨?_, ?_, ?_, ?_, ?_, ?_⟩
    · rw [htog, hlbf]
      simp only [hr1, Option.map_some]
      simp
    · rw [htog, hlbf]
      simp only [pmFindById, hsnd]
      rw [find?_middle (fun q => q.id == pid) l₁ l₂
        ({ p with likes := p.likes + 1 }) hl₁ hppred]
      simp
    · rw [htog, hlbf]
      simp [ulMember_ulAdd_self _ uid pid ent hent]
    · rw [htog]
      simpa [hidmap] using hndp
    · rw [htog]
      simpa [ulAdd_fst] using hndu2
    · rw [htog]
      intro q hq
      simp only [hsnd] at hq
      rcases List.mem_append.mp hq with hql | hqr
      · have hqne : q.id ≠ pid := by
          simpa using hl₁ q hql
        have hqmem : q ∈ s.posts := by
          rw [hl]
          exact List.mem_append_left _ hql
        rw [hcons q hqmem, ← likerCount_ulEnsure s.user_likes uid q.id,
          likerCount_ulAdd_other _ uid pid q.id hqne]
      · rcases List.mem_cons.mp hqr with hqf | hql₂
        · subst hqf
          show p.likes + 1 =
            likerCount (ulAdd (ulEnsure s.user_likes uid) uid pid) p.id
          rw [hpid, likerCount_ulAdd_self _ uid pid ent hndu2 hent hc,
            likerCount_ulEnsure s.user_likes uid pid, ← hplikes]
        · have hpnotin : p.id ∉ l₂.map Post.id := by
            rw [hl, List.map_append] at hndp
            have h2 := hndp.of_append_right
            rw [List.map_cons] at h2
            exact (List.nodup_cons.mp h2).1
          have hqne : q.id ≠ pid := by
            intro he
            exact hpnotin
              ((hpid.trans he.symm) ▸ List.mem_map.mpr ⟨q, hql₂, rfl⟩)
          have hqmem : q ∈ s.posts := by
            rw [hl]
            exact List.mem_append_right _ (List.mem_cons_of_mem p hql₂)
          rw [hcons q hqmem, ← likerCount_ulEnsure s.user_likes uid q.id,
            likerCount_ulAdd_other _ uid pid q.id hqne]

/-- The state effect of one `toggle_like` call. -/
def toggleStep (pid uid : Int) (s : PMState) : PMState :=
  (pmToggleLike s pid uid).2

/-- An even number of toggles restores the stored post (so its like count)
and the Like membership, and keeps the state well-formed. -/
lemma toggle_iter_even (pid uid : Int) (p : Post) :
    ∀ (n : Nat) (s : PMState), PMGood s → pmFindById s pid = some p →
      PMGood ((toggleStep pid uid)^[2 * n] s) ∧
        pmFindById ((toggleStep pid uid)^[2 * n] s) pid = some p ∧
        ulMember ((toggleStep pid uid)^[2 * n] s).user_likes uid pid =
          ulMember s.user_likes uid pid := by
  intro n
  induction n with
  | zero =>
    intro s hg hf
    exact ⟨hg, hf, rfl⟩
  | succ n ih =>
    intro s hg hf
    have hiter : (toggleStep pid uid)^[2 * (n + 1)] s =
        (toggleStep pid uid)^[2 * n]
          (toggleStep pid uid (toggleStep pid uid s)) := by
      have h2 : 2 * (n + 1) = 2 * n + 2 := by ring
      rw [h2, Function.iterate_add_apply]
      rfl
    by_cases hm : ulMember s.user_likes uid pid = true
    · obtain ⟨_, hfind1, hmem1, hgood1⟩ := pmToggleLike_step s pid uid p hg hf
      simp only [hm, if_true, Bool.not_true] at hfind1 hmem1
      obtain ⟨_, hfind2, hmem2, hgood2⟩ :=
        pmToggleLike_step _ pid uid _ hgood1 hfind1
      simp only [hmem1, Bool.false_eq_true, if_false, Bool.not_false]
        at hfind2 hmem2
      have hps : ({ { p with likes := p.likes - 1 } with
          likes := p.likes - 1 + 1 } : Post) = p := by
        have hx : p.likes - 1 + 1 = p.likes := by omega
        rw [hx]
      rw [hps] at hfind2
      rw [hiter]
      obtain ⟨ha, hb, hc2⟩ := ih _ hgood2 hfind2
      refine ⟨ha, hb, ?_⟩
      calc ulMember ((toggleStep pid uid)^[2 * n]
              (toggleStep pid uid (toggleStep pid uid s))).user_likes uid pid
          = ulMember
              (toggleStep pid uid (toggleStep pid uid s)).user_likes uid pid :=
            hc2
        _ = ulMember s.user_likes uid pid := hmem2.trans hm.symm
    · have hmf : ulMember s.user_likes uid pid = false := by simpa using hm
      obtain ⟨_, hfind1, hmem1, hgood1⟩ := pmToggleLike_step s pid uid p hg hf
      simp only [hmf, Bool.false_eq_true, if_false, Bool.not_false]
        at hfind1 hmem1
      obtain ⟨_, hfind2, hmem2, hgood2⟩ :=
        pmToggleLike_step _ pid uid _ hgood1 hfind1
      simp only [hmem1, if_true, Bool.not_true] at hfind2 hmem2
      have hps : ({ { p with likes := p.likes + 1 } with
          likes := p.likes + 1 - 1 } : Post) = p := by
        have hx : p.likes + 1 - 1 = p.likes := by omega
        rw [hx]
      rw [hps] at hfind2
      rw [hiter]
      obtain ⟨ha, hb, hc2⟩ := ih _ hgood2 hfind2
      refine ⟨ha, hb, ?_⟩
      calc ulMember ((toggleStep pid uid)^[2 * n]
              (toggleStep pid uid (toggleStep pid uid s))).user_likes uid pid
          = ulMember
              (toggleStep pid uid (toggleStep pid uid s)).user_likes uid pid :=
            hc2
        _ = ulMember s.user_likes uid pid := hmem2.trans hmf.symm

/-- C4: `toggle_like` on a well-formed store flips the (user, post) Like
membership — removing it and reporting liked=false when present, inserting
it and reporting liked=true when absent — moving the stored like count by
exactly one in the same step; an even number of toggles restores both the
membership and the like count, an odd number leaves both flipped. The
well-formedness hypotheses (distinct ids, like counters consistent with the
Like rows) hold in every state `PostModel` can reach. -/
theorem toggle_like_flips_and_restores (s : PMState) (pid uid : Int)
    (p : Post) (hgood : PMGood s) (hfind : pmFindById s pid = some p) :
    (ulMember s.user_likes uid pid = true →
       (pmToggleLike s pid uid).1 =
           some ({ p with likes := p.likes - 1 }, false) ∧
         pmFindById (pmToggleLike s pid uid).2 pid =
           some { p with likes := p.likes - 1 } ∧
         ulMember (pmToggleLike s pid uid).2.user_likes uid pid = false) ∧
      (ulMember s.user_likes uid pid = false →
        (pmToggleLike s pid uid).1 =
            some ({ p with likes := p.likes + 1 }, true) ∧
          pmFindById (pmToggleLike s pid uid).2 pid =
            some { p with likes := p.likes + 1 } ∧
          ulMember (pmToggleLike s pid uid).2.user_likes uid pid = true) ∧
      (∀ n : Nat,
        pmFindById ((toggleStep pid uid)^[2 * n] s) pid = some p ∧
          ulMember ((toggleStep pid uid)^[2 * n] s).user_likes uid pid =
            ulMember s.user_likes uid pid ∧
          pmFindById ((toggleStep pid uid)^[2 * n + 1] s) pid =
            some { p with likes := if ulMember s.user_likes uid pid then
                     p.likes - 1 else p.likes + 1 } ∧
          ulMember ((toggleStep pid uid)^[2 * n + 1] s).user_likes uid pid =
            (! ulMember s.user_likes uid pid)) := by
  obtain ⟨hres, hfind1, hmem1, hgood1⟩ := pmToggleLike_step s pid uid p hgood hfind
  refine ⟨fun hm => ?_, fun hm => ?_, fun n => ?_⟩
  · rw [hm] at hres hfind1 hmem1
    simp only [if_true, Bool.not_true] at hres hfind1 hmem1
    exact ⟨hres, hfind1, hmem1⟩
  · rw [hm] at hres hfind1 hmem1
    simp only [Bool.false_eq_true, if_false, Bool.not_false] at hres hfind1 hmem1
    exact ⟨hres, hfind1, hmem1⟩
  · obtain ⟨hgn, hfn, hmn⟩ := toggle_iter_even pid uid p n s hgood hfind
    obtain ⟨_, hfind2, hmem2, _⟩ := pmToggleLike_step _ pid uid p hgn hfn
    rw [hmn] at hfind2 hmem2
    have hodd : (toggleStep pid uid)^[2 * n + 1] s =
        toggleStep pid uid ((toggleStep pid uid)^[2 * n] s) :=
      Function.iterate_succ_apply' (toggleStep pid uid) (2 * n) s
    refine ⟨hfn, hmn, ?_, ?_⟩
    · rw [hodd]
      exact hfind2
    · rw [hodd]
      exact hmem2

/-- Fixture: a consistent store with one unliked post. -/
def likePM : PMState := ⟨[⟨1, "t", "c", none, 1, "alice", none, 5, 0, 0, 0⟩],
  [], 2⟩

/-- Witness for C4 at a concrete store: liking post 1 as user 5 reports
liked=true with count 1, and two toggles restore the post and the (absent)
membership. -/
theorem toggle_like_flips_and_restores_witness :
    (pmToggleLike likePM 1 5).1 =
        some (⟨1, "t", "c", none, 1, "alice", none, 5, 0, 1, 0⟩, true) ∧
      pmFindById ((toggleStep 1 5)^[2 * 1] likePM) 1 =
        some ⟨1, "t", "c", none, 1, "alice", none, 5, 0, 0, 0⟩ ∧
      ulMember ((toggleStep 1 5)^[2 * 1] likePM).user_likes 5 1 = false := by
  have hgood : PMGood likePM := by
    unfold PMGood LikesConsistent likerCount
    refine ⟨by decide, by decide, by decide⟩
  have h := toggle_like_flips_and_restores likePM 1 5
    ⟨1, "t", "c", none, 1, "alice", none, 5, 0, 0, 0⟩ hgood rfl
  refine ⟨(h.2.1 (by decide)).1, (h.2.2 1).1, ?_⟩
  rw [(h.2.2 1).2.1]
  decide

end Community
